import Mathlib

set_option maxRecDepth 2000000

/-!
Verification development for the dynport-server repository.

The definitions below are a shallow embedding of the Go sources:
  - main.go            : PROTOCOL, PortMappingLease
  - datastore.go       : UpsertLease, GetLeaseById, GetLeaseByIpAndPort,
                         IsExternalPortInUse, leaseHash
  - dynport.go         : handleRequest, handleNATPMPRequest,
                         handleNATPMPMappingRequest, responseWithErrorResultCode,
                         readNetworkOrderUint16/32, writeNetworkOrderUint16/32,
                         randomPort, isPortInRange, ACL evaluation
  - ipt_mgr.go         : ensureIn, listCurrentChain, setActiveChain,
                         removeUsedChains and the iptables state they act on

Machine bytes and words are modelled as Nat with explicit truncation
(mod 256 / mod 2^16 / mod 2^32) where the Go code converts. Wall-clock
instants (time.Time) are modelled as Int; time.Time.After is strict >.
I/O (UDP sockets, the badger KV) is modelled by explicit state passing:
the badgerhold store is a list of leases, a UDP exchange is a pure
function from the datagram bytes and server state to a HandleResult.
-/

/-! ### Protocol and lease data model (main.go) -/

/-- main.go: type PROTOCOL uint8; TCP = 0, UDP = 1. -/
inductive PROTOCOL where
  | tcp
  | udp
deriving DecidableEq, Repr

/-- main.go: PROTOCOL.String(): 0 renders as "tcp", 1 as "udp". -/
def PROTOCOL.str : PROTOCOL → String
  | .tcp => "tcp"
  | .udp => "udp"

/-- An IPv4 address as its four dotted-quad components. -/
structure IPv4 where
  o1 : Nat
  o2 : Nat
  o3 : Nat
  o4 : Nat
deriving DecidableEq, Repr

def dotStr : String := "."

/-- net.IP.To16().String() of an IPv4(-mapped) address: the dotted-quad
decimal rendering, e.g. "192.168.1.10". -/
def IPv4.str (ip : IPv4) : String :=
  toString ip.o1 ++ dotStr ++ toString ip.o2 ++ dotStr ++ toString ip.o3
    ++ dotStr ++ toString ip.o4

/-- The IPv4 address as a 32-bit number, most significant octet first. -/
def IPv4.toNat (ip : IPv4) : Nat :=
  ip.o1 * 2 ^ 24 + ip.o2 * 2 ^ 16 + ip.o3 * 2 ^ 8 + ip.o4

/-- main.go: type PortMappingLease. Created/LastSeen are time.Time,
modelled as Int instants. -/
structure PortMappingLease where
  Id : String
  Created : Int
  LastSeen : Int
  ClientIP : IPv4
  ClientPort : Nat
  Protocol : PROTOCOL
  ExternalPort : Nat
deriving DecidableEq, Repr

/-! ### Byte-level helpers for leaseHash (datastore.go lines 112-120)

datastore.go builds the hashed key as
  data = []byte(protocol.String()) ++ [0]
      ++ []byte(clientIP.To16().String()) ++ [0]
      ++ []byte(string(internalPort))
and returns fmt.Sprintf("%x", md5.Sum(data)).

string(internalPort) is Go's integer-to-string conversion: the UTF-8
encoding of the code point with that value, with values in the surrogate
range U+D800..U+DFFF (and beyond U+10FFFF) replaced by U+FFFD. -/

/-- UTF-8 bytes of an ASCII string (all strings fed to leaseHash other
than the port serialization are ASCII). -/
def strBytes (s : String) : List Nat :=
  s.data.map Char.toNat

/-- UTF-8 encoding of a Unicode code point (1 to 4 bytes). -/
def utf8Encode (c : Nat) : List Nat :=
  if c < 0x80 then [c]
  else if c < 0x800 then [0xC0 + c / 64, 0x80 + c % 64]
  else if c < 0x10000 then [0xE0 + c / 4096, 0x80 + c / 64 % 64, 0x80 + c % 64]
  else [0xF0 + c / 262144, 0x80 + c / 4096 % 64, 0x80 + c / 64 % 64, 0x80 + c % 64]

/-- Go's string(n) integer conversion: UTF-8 of code point n, except that
surrogates (0xD800..0xDFFF) and values above 0x10FFFF become U+FFFD. -/
def goRuneBytes (n : Nat) : List Nat :=
  if 0xD800 ≤ n ∧ n ≤ 0xDFFF then utf8Encode 0xFFFD
  else if 0x10FFFF < n then utf8Encode 0xFFFD
  else utf8Encode n

/-! ### MD5 (crypto/md5), on byte lists as Nat -/

def M32 : Nat := 4294967296

def add32 (a b : Nat) : Nat := (a + b) % M32

def not32 (x : Nat) : Nat := x ^^^ 0xFFFFFFFF

def rotl32 (x s : Nat) : Nat :=
  (x % M32) * 2 ^ s % M32 + (x % M32) / 2 ^ (32 - s)

/-- The 64 MD5 sine-derived constants, floor(abs(sin(i+1)) * 2^32). -/
def md5K (i : Nat) : Nat :=
  [0xd76aa478, 0xe8c7b756, 0x242070db, 0xc1bdceee,
   0xf57c0faf, 0x4787c62a, 0xa8304613, 0xfd469501,
   0x698098d8, 0x8b44f7af, 0xffff5bb1, 0x895cd7be,
   0x6b901122, 0xfd987193, 0xa679438e, 0x49b40821,
   0xf61e2562, 0xc040b340, 0x265e5a51, 0xe9b6c7aa,
   0xd62f105d, 0x02441453, 0xd8a1e681, 0xe7d3fbc8,
   0x21e1cde6, 0xc33707d6, 0xf4d50d87, 0x455a14ed,
   0xa9e3e905, 0xfcefa3f8, 0x676f02d9, 0x8d2a4c8a,
   0xfffa3942, 0x8771f681, 0x6d9d6122, 0xfde5380c,
   0xa4beea44, 0x4bdecfa9, 0xf6bb4b60, 0xbebfbc70,
   0x289b7ec6, 0xeaa127fa, 0xd4ef3085, 0x04881d05,
   0xd9d4d039, 0xe6db99e5, 0x1fa27cf8, 0xc4ac5665,
   0xf4292244, 0x432aff97, 0xab9423a7, 0xfc93a039,
   0x655b59c3, 0x8f0ccc92, 0xffeff47d, 0x85845dd1,
   0x6fa87e4f, 0xfe2ce6e0, 0xa3014314, 0x4e0811a1,
   0xf7537e82, 0xbd3af235, 0x2ad7d2bb, 0xeb86d391].getD i 0

/-- Per-step left-rotation amounts. -/
def md5S (i : Nat) : Nat :=
  [7, 12, 17, 22, 7, 12, 17, 22, 7, 12, 17, 22, 7, 12, 17, 22,
   5, 9, 14, 20, 5, 9, 14, 20, 5, 9, 14, 20, 5, 9, 14, 20,
   4, 11, 16, 23, 4, 11, 16, 23, 4, 11, 16, 23, 4, 11, 16, 23,
   6, 10, 15, 21, 6, 10, 15, 21, 6, 10, 15, 21, 6, 10, 15, 21].getD i 0

/-- The round function and message-word index for step i. -/
def md5F (i b c d : Nat) : Nat :=
  if i < 16 then (b &&& c) ||| (not32 b &&& d)
  else if i < 32 then (d &&& b) ||| (not32 d &&& c)
  else if i < 48 then b ^^^ c ^^^ d
  else c ^^^ (b ||| not32 d)

def md5G (i : Nat) : Nat :=
  if i < 16 then i
  else if i < 32 then (5 * i + 1) % 16
  else if i < 48 then (3 * i + 5) % 16
  else 7 * i % 16

/-- Little-endian 32-bit word j of a 64-byte block. -/
def leWord (block : List Nat) (j : Nat) : Nat :=
  block.getD (4 * j) 0 + 256 * block.getD (4 * j + 1) 0
    + 65536 * block.getD (4 * j + 2) 0 + 16777216 * block.getD (4 * j + 3) 0

/-- One of the 64 MD5 steps on state (a, b, c, d). -/
def md5Step (block : List Nat) (st : Nat × Nat × Nat × Nat) (i : Nat) :
    Nat × Nat × Nat × Nat :=
  match st with
  | (a, b, c, d) =>
    let f := add32 (add32 (add32 a (md5F i b c d)) (md5K i)) (leWord block (md5G i))
    (d, add32 b (rotl32 f (md5S i)), b, c)

/-- Process one 64-byte block. -/
def md5Block (st : Nat × Nat × Nat × Nat) (block : List Nat) :
    Nat × Nat × Nat × Nat :=
  match st with
  | (a0, b0, c0, d0) =>
    match (List.range 64).foldl (md5Step block) (a0, b0, c0, d0) with
    | (a, b, c, d) => (add32 a0 a, add32 b0 b, add32 c0 c, add32 d0 d)

/-- Split into 64-byte chunks; the fuel argument (initialized to the list
length) only serves to make the recursion structural. -/
def chunks64Fuel : Nat → List Nat → List (List Nat)
  | 0, _ => []
  | _, [] => []
  | fuel + 1, x :: t => ((x :: t).take 64) :: chunks64Fuel fuel ((x :: t).drop 64)

def chunks64 (l : List Nat) : List (List Nat) :=
  chunks64Fuel l.length l

/-- MD5 padding: 0x80, zeros to 56 mod 64, then the bit length as 8
little-endian bytes. -/
def md5Pad (msg : List Nat) : List Nat :=
  let bitLen := 8 * msg.length
  let zeros := (64 - (msg.length + 9) % 64) % 64
  msg ++ [0x80] ++ List.replicate zeros 0 ++
    [bitLen % 256, bitLen / 256 % 256, bitLen / 65536 % 256,
     bitLen / 16777216 % 256, bitLen / 2 ^ 32 % 256, bitLen / 2 ^ 40 % 256,
     bitLen / 2 ^ 48 % 256, bitLen / 2 ^ 56 % 256]

/-- Little-endian bytes of a 32-bit word. -/
def leBytes4 (w : Nat) : List Nat :=
  [w % 256, w / 256 % 256, w / 65536 % 256, w / 16777216 % 256]

/-- The 16 digest bytes of MD5. -/
def md5Sum (msg : List Nat) : List Nat :=
  match (chunks64 (md5Pad msg)).foldl md5Block
      (0x67452301, 0xefcdab89, 0x98badcfe, 0x10325476) with
  | (a, b, c, d) => leBytes4 a ++ leBytes4 b ++ leBytes4 c ++ leBytes4 d

def hexDigit (n : Nat) : Char :=
  if n < 10 then Char.ofNat (48 + n) else Char.ofNat (87 + n)

/-- fmt.Sprintf("%x", bytes): lowercase hex, two digits per byte. -/
def hexString (bytes : List Nat) : String :=
  String.mk (List.flatten (bytes.map (fun b => [hexDigit (b / 16 % 16), hexDigit (b % 16)])))

/-- datastore.go leaseHash: the byte string that gets hashed. -/
def leaseHashData (protocol : PROTOCOL) (clientIP : IPv4) (internalPort : Nat) :
    List Nat :=
  strBytes protocol.str ++ [0] ++ strBytes clientIP.str ++ [0]
    ++ goRuneBytes internalPort

/-- datastore.go lines 112-120: the lease Id is the lowercase-hex MD5 of
leaseHashData. -/
def leaseHash (protocol : PROTOCOL) (clientIP : IPv4) (internalPort : Nat) :
    String :=
  hexString (md5Sum (leaseHashData protocol clientIP internalPort))

/-! ### The lease store (datastore.go)

The badgerhold store is modelled as a list of leases; Find with an
equality query is List.filter, Insert appends, Update rewrites the entry
with the given key. Backing-store I/O failures are modelled where a claim
is about them (IsExternalPortInUse) by passing the Find outcome
explicitly. -/

inductive StoreErr where
  | notFound
  | multipleMatches
  | ioError
deriving DecidableEq, Repr

def findById (store : List PortMappingLease) (id : String) :
    List PortMappingLease :=
  store.filter (fun l => l.Id == id)

def storeInsert (store : List PortMappingLease) (lease : PortMappingLease) :
    List PortMappingLease :=
  store ++ [lease]

def storeUpdate (store : List PortMappingLease) (id : String)
    (v : PortMappingLease) : List PortMappingLease :=
  store.map (fun l => if l.Id == id then v else l)

/-- datastore.go lines 61-75 (UpsertLease): look up by Id; insert when
absent; no-op when the stored LastSeen is strictly after the incoming one;
otherwise copy the incoming LastSeen onto the stored lease and update. -/
def UpsertLease (store : List PortMappingLease) (lease : PortMappingLease) :
    List PortMappingLease :=
  match findById store lease.Id with
  | [] => storeInsert store lease
  | l0 :: _ =>
    if l0.LastSeen > lease.LastSeen then store
    else storeUpdate store lease.Id { l0 with LastSeen := lease.LastSeen }

/-- datastore.go lines 77-81 (GetLeaseById): store.Get(id, l) decodes the
stored lease into l (error badger.ErrKeyNotFound on a miss), but the
function returns nil for the lease in every branch. -/
def GetLeaseById (store : List PortMappingLease) (id : String) :
    Except StoreErr (Option PortMappingLease) :=
  match findById store id with
  | [] => .error .notFound
  | _ :: _ => .ok none

/-- datastore.go lines 83-101 (GetLeaseByIpAndPort): zero matches gives
(nil, nil), one match gives the lease, more is a hard error. -/
def GetLeaseByIpAndPort (store : List PortMappingLease) (ip : IPv4)
    (port : Nat) (protocol : PROTOCOL) : Except StoreErr (Option PortMappingLease) :=
  match store.filter (fun l =>
      l.ClientIP == ip && l.ClientPort == port && l.Protocol == protocol) with
  | [] => .ok none
  | [l] => .ok (some l)
  | _ => .error .multipleMatches

def findByExternalPort (store : List PortMappingLease) (port : Nat) :
    List PortMappingLease :=
  store.filter (fun l => l.ExternalPort == port)

/-- datastore.go lines 103-110 (IsExternalPortInUse), taking the outcome
of the backing Find query: an I/O error makes the port count as in use;
otherwise the port is in use iff some lease holds it. -/
def IsExternalPortInUse (findResult : Except StoreErr (List PortMappingLease)) :
    Bool :=
  match findResult with
  | .error _ => true
  | .ok leases => decide (0 < leases.length)

/-- IsExternalPortInUse on a store whose Find succeeds. -/
def isExternalPortInUseStore (store : List PortMappingLease) (port : Nat) :
    Bool :=
  IsExternalPortInUse (.ok (findByExternalPort store port))

/-! ### NAT-PMP wire helpers (dynport.go lines 292-320) -/

/-- dynport.go readNetworkOrderUint16; none models the Go index-out-of-range
panic when fewer than 2 bytes remain. -/
def readNetworkOrderUint16 (buf : List Nat) : Option (Nat × List Nat) :=
  match buf with
  | b0 :: b1 :: rest => some (b0 * 256 + b1, rest)
  | _ => none

/-- dynport.go readNetworkOrderUint32; none models the Go panic. -/
def readNetworkOrderUint32 (buf : List Nat) : Option (Nat × List Nat) :=
  match buf with
  | b0 :: b1 :: b2 :: b3 :: rest =>
    some (b0 * 16777216 + b1 * 65536 + b2 * 256 + b3, rest)
  | _ => none

def writeNetworkOrderUint16 (d : Nat) : List Nat :=
  [d / 256 % 256, d % 256]

def writeNetworkOrderUint32 (d : Nat) : List Nat :=
  [d / 16777216 % 256, d / 65536 % 256, d / 256 % 256, d % 256]

/-- dynport.go lines 317-320 (randomPort): uint16(rand.Intn(size)) + start,
in uint16 arithmetic; r stands for the rand.Intn draw. -/
def randomPort (start : Nat) (r : Nat) : Nat :=
  (r % 65536 + start) % 65536

/-- end - start + 1 in uint16 arithmetic: the bound handed to rand.Intn. -/
def portRangeSize (start stop : Nat) : Nat :=
  (stop + 65536 - start + 1) % 65536

/-! ### ACL evaluation (dynport.go lines 179-196, 279-290) -/

/-- A parsed CIDR: network address and mask length, as net.ParseCIDR
produces. -/
structure Cidr where
  addr : IPv4
  maskLen : Nat
deriving DecidableEq, Repr

/-- net.IPNet.Contains: the top maskLen bits of the address equal those of
the network. -/
def cidrContains (c : Cidr) (ip : IPv4) : Bool :=
  ip.toNat / 2 ^ (32 - c.maskLen) == c.addr.toNat / 2 ^ (32 - c.maskLen)

/-- cmd.go ACLConfiguration. The CIDR field models the string after
net.ParseCIDR: none stands for a string ParseCIDR rejects (the entry is
then skipped with a warning). -/
structure ACLConfiguration where
  CIDR : Option Cidr
  InternalPorts : String
  Deny : Bool
deriving DecidableEq, Repr

/-- strings.Split(s, "-") on the character list (the separator used by
isPortInRange is the single character '-'). -/
def splitDashChars : List Char → List (List Char)
  | [] => [[]]
  | c :: t =>
    if c = '-' then [] :: splitDashChars t
    else
      match splitDashChars t with
      | [] => [[c]]
      | h :: r => (c :: h) :: r

def splitDash (s : String) : List String :=
  (splitDashChars s.data).map String.mk

def parseDigitsAux : List Char → Nat → Option Nat
  | [], acc => some acc
  | c :: t, acc =>
    if '0' ≤ c ∧ c ≤ '9' then parseDigitsAux t (acc * 10 + (c.toNat - 48))
    else none

def parseDigits : List Char → Option Nat
  | [] => none
  | c :: t => parseDigitsAux (c :: t) 0

/-- strconv.Atoi: optional sign, then decimal digits; anything else is an
error. (int64 overflow, which validated port ranges never approach, is
not modelled.) -/
def goAtoi (s : String) : Option Int :=
  match s.data with
  | [] => none
  | c :: t =>
    if c = '-' then (parseDigits t).map (fun n => -(n : Int))
    else if c = '+' then (parseDigits t).map (fun n => (n : Int))
    else (parseDigits (c :: t)).map (fun n => (n : Int))

/-- dynport.go lines 279-290 (isPortInRange): split on "-", Atoi both
halves, compare inclusively. Config validation (validate:"range") makes
the dash present; on a dash-free string the Go code would panic indexing
r[1], a case this model does not reach. -/
def isPortInRange (port : Nat) (portRange : String) : Bool :=
  match splitDash portRange with
  | r0 :: r1 :: _ =>
    match goAtoi r0, goAtoi r1 with
    | some lo, some hi => decide ((port : Int) ≥ lo ∧ (port : Int) ≤ hi)
    | _, _ => false
  | _ => false

/-- Does this ACL entry match the client (CIDR contains the IP and the
port range contains the internal port)? Entries whose CIDR failed to
parse never match. -/
def aclEntryMatches (a : ACLConfiguration) (clientIP : IPv4)
    (internalPort : Nat) : Bool :=
  match a.CIDR with
  | none => false
  | some c => cidrContains c clientIP && isPortInRange internalPort a.InternalPorts

/-- The ACL scan loop of dynport.go lines 180-196: allowed starts at
allowDefault; each matching entry sets allowed := !Deny; a true value
short-circuits, a false one keeps scanning. -/
def aclScan (allowed : Bool) (acl : List ACLConfiguration) (clientIP : IPv4)
    (internalPort : Nat) : Bool :=
  match acl with
  | [] => allowed
  | a :: rest =>
    if aclEntryMatches a clientIP internalPort then
      if !a.Deny then true else aclScan false rest clientIP internalPort
    else aclScan allowed rest clientIP internalPort

def aclAllowed (allowDefault : Bool) (acl : List ACLConfiguration)
    (clientIP : IPv4) (internalPort : Nat) : Bool :=
  aclScan allowDefault acl clientIP internalPort

/-! ### The NAT-PMP request handler (dynport.go lines 102-260)

The handler is embedded as a pure function of the datagram bytes and a
ServerState snapshot. HandleResult.reply carries the response datagram
written by conn.WriteTo and the store after the request;
HandleResult.err models an error return before any WriteTo (no response
datagram); HandleResult.oob models a Go slice/index out-of-range panic. -/

structure ServerState where
  store : List PortMappingLease
  acl : List ACLConfiguration
  allowDefault : Bool
  sec : Nat
  now : Int
  rnd : List Nat
  externalIP : IPv4
deriving Repr

inductive HandleResult where
  | reply (res : List Nat) (store : List PortMappingLease)
  | err (store : List PortMappingLease)
  | oob
deriving DecidableEq, Repr

/-- dynport.go lines 134-142 (responseWithErrorResultCode): 8 zeroed bytes
with the result code at [2:4] and the epoch seconds at [4:8]; byte 1 is
never assigned and stays 0. -/
def responseWithErrorResultCode (sec : Nat) (code : Nat) : List Nat :=
  [0, 0] ++ writeNetworkOrderUint16 code ++ writeNetworkOrderUint32 sec

/-- dynport.go lines 144-156: the 12-byte opcode-0 response; res[1] = 128. -/
def handleNATPMPExternalAddressRequest (sec : Nat) (externalIP : IPv4) :
    List Nat :=
  [0, 128, 0, 0] ++ writeNetworkOrderUint32 sec
    ++ [externalIP.o1 % 256, externalIP.o2 % 256, externalIP.o3 % 256,
        externalIP.o4 % 256]

/-- dynport.go lines 246-254: the 16-byte mapping response. -/
def mappingResponse (op resultCode sec internalPort externalPort lifetime : Nat) :
    List Nat :=
  [0, (128 + op) % 256, 0, resultCode % 256] ++ writeNetworkOrderUint32 sec
    ++ writeNetworkOrderUint16 internalPort ++ writeNetworkOrderUint16 externalPort
    ++ writeNetworkOrderUint32 lifetime

/-- dynport.go lines 171-177: op 1 is UDP, op 2 is TCP; the Go zero value
of PROTOCOL (TCP) stands for any other op, which never reaches here. -/
def protocolOfOp (op : Nat) : PROTOCOL :=
  if op = 1 then .udp else .tcp

/-- dynport.go lines 209-217: the allocation loop tests the 10 candidate
ports in order (the i == 9 arm errors out after the tenth in-use pick) and
accepts the first one IsExternalPortInUse rejects. -/
def portAllocLoop (inUse : Nat → Bool) (ports : List Nat) : Option Nat :=
  match ports with
  | [] => none
  | p :: rest => if inUse p then portAllocLoop inUse rest else some p

/-- The ten candidate external ports: randomPort applied to the first ten
rand.Intn draws, with the hard-coded range start 10000 (dynport.go
lines 206-208). -/
def candidatePorts (rnd : List Nat) : List Nat :=
  (rnd.take 10).map (randomPort 10000)

/-- The finishing tail of the allow path (dynport.go lines 229-259):
refresh LastSeen, upsert, and answer with the lease's external port. -/
def finishMapping (st : ServerState) (op internalPort lifetime : Nat)
    (lease : PortMappingLease) : HandleResult :=
  let lease' := { lease with LastSeen := st.now }
  let store' := UpsertLease st.store lease'
  .reply (mappingResponse op 0 st.sec internalPort lease'.ExternalPort lifetime)
    store'

/-- dynport.go lines 157-260 (handleNATPMPMappingRequest). buf is the
datagram with its first 4 bytes stripped. The three reads panic (oob)
when fewer than 8 bytes remain. On an ACL deny the response echoes the
requested external port with result code 2 and the store is untouched. -/
def handleNATPMPMappingRequest (st : ServerState) (op : Nat) (clientIP : IPv4)
    (buf : List Nat) : HandleResult :=
  match readNetworkOrderUint16 buf with
  | none => .oob
  | some (internalPort, buf1) =>
  match readNetworkOrderUint16 buf1 with
  | none => .oob
  | some (externalPortReq, buf2) =>
  match readNetworkOrderUint32 buf2 with
  | none => .oob
  | some (lifetime, _) =>
    if aclAllowed st.allowDefault st.acl clientIP internalPort then
      match GetLeaseByIpAndPort st.store clientIP internalPort (protocolOfOp op) with
      | .error _ => .err st.store
      | .ok none =>
        match portAllocLoop (isExternalPortInUseStore st.store)
            (candidatePorts st.rnd) with
        | none => .err st.store
        | some extPort =>
          finishMapping st op internalPort lifetime
            { Id := leaseHash (protocolOfOp op) clientIP internalPort
              Created := st.now
              LastSeen := st.now
              ClientIP := clientIP
              ClientPort := internalPort
              Protocol := protocolOfOp op
              ExternalPort := extPort }
      | .ok (some lease0) =>
        finishMapping st op internalPort lifetime lease0
    else
      .reply (mappingResponse op 2 st.sec internalPort externalPortReq lifetime)
        st.store

/-- dynport.go lines 113-132 (handleNATPMPRequest): dispatch on the opcode
byte. For opcodes 1 and 2 the Go code slices buf[4:], which panics when
the datagram is shorter than 4 bytes. -/
def handleNATPMPRequest (st : ServerState) (clientIP : IPv4) (buf : List Nat) :
    HandleResult :=
  match buf with
  | _ :: opcode :: _ =>
    if opcode = 0 then
      .reply (handleNATPMPExternalAddressRequest st.sec st.externalIP) st.store
    else if opcode = 1 then
      if 4 ≤ buf.length then handleNATPMPMappingRequest st 1 clientIP (buf.drop 4)
      else .oob
    else if opcode = 2 then
      if 4 ≤ buf.length then handleNATPMPMappingRequest st 2 clientIP (buf.drop 4)
      else .oob
    else
      .reply (responseWithErrorResultCode st.sec 5) st.store
  | _ => .reply (responseWithErrorResultCode st.sec 5) st.store

/-- dynport.go lines 102-111 (handleRequest): a datagram whose first byte
is nonzero (or which is empty) gets the 8-byte Unsupported Version
response with code 1. -/
def handleRequest (st : ServerState) (clientIP : IPv4) (buf : List Nat) :
    HandleResult :=
  match buf with
  | b0 :: _ =>
    if b0 = 0 then handleNATPMPRequest st clientIP buf
    else .reply (responseWithErrorResultCode st.sec 1) st.store
  | [] => .reply (responseWithErrorResultCode st.sec 1) st.store

/-! ### Concrete fixtures used by closed theorems and witnesses -/

def ipC : IPv4 := ⟨192, 168, 1, 10⟩

def ipDenied : IPv4 := ⟨10, 0, 0, 5⟩

def idC : String := "lease-1"

def leaseC : PortMappingLease :=
  { Id := idC, Created := 0, LastSeen := 0, ClientIP := ipC,
    ClientPort := 4242, Protocol := .udp, ExternalPort := 10500 }

def stC : ServerState :=
  { store := [], acl := [], allowDefault := true, sec := 0, now := 0,
    rnd := List.replicate 10 0, externalIP := ⟨1, 2, 3, 4⟩ }

def rangeAllStr : String := "1-65535"

/-! ### Helper lemmas about the store -/

instance {ε α : Type} [DecidableEq ε] [DecidableEq α] :
    DecidableEq (Except ε α) := fun a b =>
  match a, b with
  | .error e, .error f =>
    decidable_of_iff (e = f) ⟨fun h => by rw [h], fun h => by cases h; rfl⟩
  | .error _, .ok _ => isFalse (fun h => by cases h)
  | .ok _, .error _ => isFalse (fun h => by cases h)
  | .ok x, .ok y =>
    decidable_of_iff (x = y) ⟨fun h => by rw [h], fun h => by cases h; rfl⟩

theorem findById_eq_nil (store : List PortMappingLease) (id : String)
    (h : ∀ l ∈ store, l.Id ≠ id) : findById store id = [] := by
  refine List.filter_eq_nil_iff.mpr ?_
  intro l hl
  simp [h l hl]

theorem findById_eq_singleton {store : List PortMappingLease}
    {L : PortMappingLease} (hnd : (store.map (fun l => l.Id)).Nodup)
    (hmem : L ∈ store) : findById store L.Id = [L] := by
  induction store with
  | nil => cases hmem
  | cons a t ih =>
    rw [List.map_cons, List.nodup_cons] at hnd
    obtain ⟨ha, ht⟩ := hnd
    rcases List.mem_cons.mp hmem with h | h
    · subst h
      have hnone : ∀ l ∈ t, l.Id ≠ L.Id := by
        intro l hl heq
        exact ha (heq ▸ List.mem_map_of_mem (fun x => x.Id) hl)
      have h0 : findById t L.Id = [] := findById_eq_nil t L.Id hnone
      simp only [findById, List.filter_cons] at *
      simp [h0]
    · have hne : a.Id ≠ L.Id := by
        intro heq
        exact ha (heq ▸ List.mem_map_of_mem (fun x => x.Id) h)
      simp only [findById, List.filter_cons] at *
      simp [hne, ih ht h]

theorem member_unique_id {store : List PortMappingLease}
    {L l : PortMappingLease} (hnd : (store.map (fun x => x.Id)).Nodup)
    (hL : L ∈ store) (hl : l ∈ store) (he : l.Id = L.Id) : l = L := by
  have h1 := findById_eq_singleton hnd hL
  have h2 : l ∈ findById store L.Id := by
    simp [findById, List.mem_filter, hl, he]
  rw [h1] at h2
  simpa using h2

theorem storeUpdate_self {store : List PortMappingLease}
    {L : PortMappingLease} (hnd : (store.map (fun x => x.Id)).Nodup)
    (hL : L ∈ store) : storeUpdate store L.Id L = store := by
  unfold storeUpdate
  conv_rhs => rw [← List.map_id store]
  refine List.map_congr_left ?_
  intro x hx
  by_cases h : x.Id = L.Id
  · simp [h, member_unique_id hnd hL hx h]
  · simp [h]

/-- C1. Upsert last-writer-wins: with Ids unique in the store (invariant
I1), if no stored lease carries the incoming Id the lease is inserted
verbatim; if a stored lease L carries it, an incoming LastSeen strictly
greater than L's replaces exactly L's LastSeen (all other fields of L and
all other leases are untouched), and an incoming LastSeen not strictly
greater leaves the store unchanged (on a tie the code issues an Update,
but with the stored lease's own value, so the state is identical). -/
theorem upsertLease_last_writer_wins (store : List PortMappingLease)
    (L' : PortMappingLease) (hnd : (store.map (fun l => l.Id)).Nodup) :
    ((∀ l ∈ store, l.Id ≠ L'.Id) → UpsertLease store L' = store ++ [L']) ∧
    (∀ L ∈ store, L.Id = L'.Id →
      (L.LastSeen < L'.LastSeen →
        UpsertLease store L' = store.map
          (fun l => if l.Id == L'.Id then { L with LastSeen := L'.LastSeen }
                    else l)) ∧
      (¬ L.LastSeen < L'.LastSeen → UpsertLease store L' = store)) := by
  constructor
  · intro h
    unfold UpsertLease
    rw [findById_eq_nil store L'.Id h]
    rfl
  · intro L hL hid
    have hsing : findById store L'.Id = [L] := by
      rw [← hid]
      exact findById_eq_singleton hnd hL
    constructor
    · intro hlt
      simp only [UpsertLease, hsing]
      rw [if_neg (by omega)]
      rfl
    · intro hge
      simp only [UpsertLease, hsing]
      by_cases hgt : L.LastSeen > L'.LastSeen
      · rw [if_pos hgt]
      · rw [if_neg hgt]
        have heq : L'.LastSeen = L.LastSeen := by omega
        have hrec : ({ L with LastSeen := L'.LastSeen } : PortMappingLease) = L := by
          rw [heq]
        rw [hrec, ← hid]
        exact storeUpdate_self hnd hL

def leaseC2 : PortMappingLease := { leaseC with LastSeen := 5 }

/-- Witness for C1 at a concrete store: the strictly-greater branch. -/
theorem upsertLease_lww_witness :
    UpsertLease [leaseC] leaseC2 = [leaseC].map
      (fun l => if l.Id == leaseC2.Id then { leaseC with LastSeen := leaseC2.LastSeen }
                else l) :=
  ((upsertLease_last_writer_wins [leaseC] leaseC2 (by decide)).2 leaseC
    (by decide) (by decide)).1 (by decide)

/-- C4. At the failing input 0x00 0x01 (version 0, opcode 1, total length
2 bytes) the Go code slices buf[4:] out of bounds and panics instead of
answering; an 11-byte opcode-2 datagram dies inside the header reads the
same way. Well-formed rejections do answer: nonzero version gets code 1
and an unsupported opcode gets code 5 (bytes 2 and 3 carry the code). -/
theorem short_mapping_datagram_oob :
    handleRequest stC ipC [0, 1] = .oob ∧
    handleRequest stC ipC [0, 2, 0, 0, 0, 0, 0, 0, 0, 0, 0] = .oob ∧
    handleRequest stC ipC [1] =
      .reply (responseWithErrorResultCode stC.sec 1) stC.store ∧
    handleRequest stC ipC [0, 9] =
      .reply (responseWithErrorResultCode stC.sec 5) stC.store ∧
    (responseWithErrorResultCode stC.sec 1).getD 3 99 = 1 ∧
    (responseWithErrorResultCode stC.sec 5).getD 3 99 = 5 := by
  decide

/-- C9. GetLeaseById never returns the lease: on a store holding a lease
with the requested id it answers ok-none (the Go function returns nil for
the lease in every branch), contradicting the specified point lookup. -/
theorem getLeaseById_returns_none_on_hit :
    (∃ l ∈ [leaseC], l.Id = idC) ∧
    GetLeaseById [leaseC] idC = .ok none ∧
    GetLeaseById [leaseC] idC ≠ .ok (some leaseC) := by
  decide

/-- C10. Fail-safe port probe: a failed backing Find makes
IsExternalPortInUse answer true, and whenever it answers false the query
succeeded with zero matching leases — a storage error can never make a
port look free. -/
theorem isExternalPortInUse_fail_safe :
    (∀ e : StoreErr, IsExternalPortInUse (.error e) = true) ∧
    (∀ r : Except StoreErr (List PortMappingLease),
      IsExternalPortInUse r = false → ∃ leases, r = .ok leases ∧ leases = []) := by
  constructor
  · intro e
    rfl
  · intro r h
    match r with
    | .error e => simp [IsExternalPortInUse] at h
    | .ok leases =>
      refine ⟨leases, rfl, ?_⟩
      simp only [IsExternalPortInUse, decide_eq_false_iff_not, Nat.not_lt,
        Nat.le_zero] at h
      exact List.length_eq_zero.mp h

/-- Witness for C10 at concrete query outcomes. -/
theorem isExternalPortInUse_fail_safe_witness :
    IsExternalPortInUse (.error .ioError) = true ∧
    ∃ leases, (Except.ok [] : Except StoreErr (List PortMappingLease)) =
      .ok leases ∧ leases = [] :=
  ⟨isExternalPortInUse_fail_safe.1 .ioError,
   isExternalPortInUse_fail_safe.2 (.ok []) (by decide)⟩

/-! ### C7: lease Id determinism and injectivity -/

/-- C7 counterexample: the distinct triples (UDP, 192.168.1.10, 0xD800)
and (UDP, 192.168.1.10, 0xD801) produce the same Id, because Go's
string(internalPort) conversion collapses every surrogate code point to
U+FFFD before hashing. -/
theorem leaseHash_injectivity_counterexample :
    leaseHash .udp ipC 0xD800 = leaseHash .udp ipC 0xD801 ∧
    (0xD800 : Nat) ≠ 0xD801 := by
  constructor
  · have h : leaseHashData .udp ipC 0xD800 = leaseHashData .udp ipC 0xD801 := by
      decide
    unfold leaseHash
    rw [h]
  · decide

/-- Triples used to check Id distinctness pairwise, varying each
component of the key. -/
def leaseTriples : List (PROTOCOL × IPv4 × Nat) :=
  [(.udp, ipC, 4242), (.tcp, ipC, 4242),
   (.udp, ⟨192, 168, 1, 11⟩, 4242), (.udp, ipC, 4243),
   (.tcp, ipDenied, 80)]

/-- C7 (amended). The Id is a pure function of (protocol, client IP,
internal port): in this embedding it takes no other input, so two calls
on one triple agree definitionally. Injectivity over all 16-bit ports is
false (see the counterexample): ports in the surrogate range
U+D800..U+DFFF all collapse onto the serialization of U+FFFD, so such
triples share an Id. Distinct triples taken from an enumerated set with
ports outside that range do produce pairwise distinct Ids. -/
theorem leaseHash_determinism_and_collisions :
    (∀ (p : PROTOCOL) (ip : IPv4) (port : Nat),
      leaseHash p ip port = leaseHash p ip port) ∧
    (∀ port, 0xD800 ≤ port → port ≤ 0xDFFF →
      ∀ (p : PROTOCOL) (ip : IPv4), leaseHash p ip port = leaseHash p ip 0xFFFD) ∧
    (∀ t1 ∈ leaseTriples, ∀ t2 ∈ leaseTriples, t1 ≠ t2 →
      leaseHash t1.1 t1.2.1 t1.2.2 ≠ leaseHash t2.1 t2.2.1 t2.2.2) := by
  refine ⟨fun p ip port => rfl, ?_, ?_⟩
  · intro port h1 h2 p ip
    have hg : goRuneBytes port = goRuneBytes 0xFFFD := by
      unfold goRuneBytes
      rw [if_pos ⟨h1, h2⟩]
      decide
    unfold leaseHash leaseHashData
    rw [hg]
  · decide

/-- Witness for C7 instantiating all three conjuncts. -/
theorem leaseHash_determinism_witness :
    leaseHash .udp ipC 4242 = leaseHash .udp ipC 4242 ∧
    leaseHash .tcp ipC 0xD90A = leaseHash .tcp ipC 0xFFFD ∧
    leaseHash .udp ipC 4242 ≠ leaseHash .tcp ipC 4242 :=
  ⟨leaseHash_determinism_and_collisions.1 .udp ipC 4242,
   leaseHash_determinism_and_collisions.2.1 0xD90A (by decide) (by decide) .tcp ipC,
   leaseHash_determinism_and_collisions.2.2 (.udp, ipC, 4242) (by decide)
     (.tcp, ipC, 4242) (by decide) (by decide)⟩

/-! ### C3: ACL evaluation -/

/-- C3. ACL evaluation: with no entries the decision is allowDefault; a
scan step on entry a is exactly "matching entry sets allowed := !Deny,
stopping on true and continuing (with allowed now false) on a deny, while
a non-matching entry changes nothing"; when the final decision is false
the handler replies with result code 2 (response bytes 2-3 are 00 02) and
the store is returned untouched — no lease is written. -/
theorem acl_evaluation_spec :
    (∀ (d : Bool) (ip : IPv4) (port : Nat), aclAllowed d [] ip port = d) ∧
    (∀ (d : Bool) (a : ACLConfiguration) (rest : List ACLConfiguration)
       (ip : IPv4) (port : Nat),
      aclAllowed d (a :: rest) ip port =
        if aclEntryMatches a ip port then
          (if !a.Deny then true else aclAllowed false rest ip port)
        else aclAllowed d rest ip port) ∧
    (∀ (st : ServerState) (op : Nat) (ip : IPv4)
       (i1 i2 e1 e2 l1 l2 l3 l4 : Nat) (rest : List Nat),
      aclAllowed st.allowDefault st.acl ip (i1 * 256 + i2) = false →
      handleNATPMPMappingRequest st op ip
          ([i1, i2, e1, e2, l1, l2, l3, l4] ++ rest) =
        .reply (mappingResponse op 2 st.sec (i1 * 256 + i2) (e1 * 256 + e2)
          (l1 * 16777216 + l2 * 65536 + l3 * 256 + l4)) st.store) ∧
    (∀ op sec i e l : Nat, (mappingResponse op 2 sec i e l).getD 2 99 = 0 ∧
      (mappingResponse op 2 sec i e l).getD 3 99 = 2) := by
  refine ⟨fun d ip port => rfl, fun d a rest ip port => rfl, ?_, ?_⟩
  · intro st op ip i1 i2 e1 e2 l1 l2 l3 l4 rest h
    simp only [handleNATPMPMappingRequest, List.cons_append, List.nil_append,
      readNetworkOrderUint16, readNetworkOrderUint32, h, Bool.false_eq_true,
      if_false]
  · intro op sec i e l
    constructor
    · rfl
    · rfl

def aclDenyAll : ACLConfiguration :=
  { CIDR := some ⟨⟨10, 0, 0, 0⟩, 8⟩, InternalPorts := rangeAllStr, Deny := true }

def stDeny : ServerState := { stC with acl := [aclDenyAll] }

/-- Witness for C3: a client in the denied 10.0.0.0/8 CIDR gets a code-2
response and an unchanged store. -/
theorem acl_evaluation_witness :
    handleNATPMPMappingRequest stDeny 1 ipDenied
        ([16, 146, 0, 0, 0, 0, 7, 8] ++ []) =
      .reply (mappingResponse 1 2 stDeny.sec (16 * 256 + 146) (0 * 256 + 0)
        (0 * 16777216 + 0 * 65536 + 7 * 256 + 8)) stDeny.store :=
  acl_evaluation_spec.2.2.1 stDeny 1 ipDenied 16 146 0 0 0 0 7 8 [] (by decide)

/-! ### C2: external port allocation -/

theorem portAllocLoop_eq_none (inUse : Nat → Bool) (ports : List Nat)
    (h : ∀ p ∈ ports, inUse p = true) : portAllocLoop inUse ports = none := by
  induction ports with
  | nil => rfl
  | cons p t ih =>
    simp only [portAllocLoop, h p (List.mem_cons_self p t), if_true]
    exact ih (fun q hq => h q (List.mem_cons_of_mem p hq))

theorem portAllocLoop_first (inUse : Nat → Bool) (pre : List Nat) (p : Nat)
    (post : List Nat) (hpre : ∀ q ∈ pre, inUse q = true)
    (hp : inUse p = false) : portAllocLoop inUse (pre ++ p :: post) = some p := by
  induction pre with
  | nil => simp [portAllocLoop, hp]
  | cons q t ih =>
    have hq := hpre q (List.mem_cons_self q t)
    simp only [List.cons_append, portAllocLoop, hq, if_true]
    exact ih (fun r hr => hpre r (List.mem_cons_of_mem q hr))

/-- C2. External port allocation on a store miss: exactly 10 candidate
ports are drawn, each uniformly-picked candidate lies in the hard-coded
range [10000, 10999]; if all 10 are in use the handler returns an error
and writes no response datagram (HandleResult.err); otherwise the first
candidate IsExternalPortInUse rejects becomes the new lease's external
port and the request completes. -/
theorem external_port_allocation (st : ServerState) (op : Nat) (ip : IPv4)
    (i1 i2 e1 e2 l1 l2 l3 l4 : Nat) (rest : List Nat)
    (hacl : aclAllowed st.allowDefault st.acl ip (i1 * 256 + i2) = true)
    (hmiss : GetLeaseByIpAndPort st.store ip (i1 * 256 + i2) (protocolOfOp op) =
      .ok none)
    (hrlen : 10 ≤ st.rnd.length)
    (hrbound : ∀ r ∈ st.rnd, r < 1000) :
    (candidatePorts st.rnd).length = 10 ∧
    (∀ p ∈ candidatePorts st.rnd, 10000 ≤ p ∧ p ≤ 10999) ∧
    ((∀ p ∈ candidatePorts st.rnd, isExternalPortInUseStore st.store p = true) →
      handleNATPMPMappingRequest st op ip
          ([i1, i2, e1, e2, l1, l2, l3, l4] ++ rest) = .err st.store) ∧
    (∀ (pre : List Nat) (p : Nat) (post : List Nat),
      candidatePorts st.rnd = pre ++ p :: post →
      (∀ q ∈ pre, isExternalPortInUseStore st.store q = true) →
      isExternalPortInUseStore st.store p = false →
      handleNATPMPMappingRequest st op ip
          ([i1, i2, e1, e2, l1, l2, l3, l4] ++ rest) =
        finishMapping st op (i1 * 256 + i2)
          (l1 * 16777216 + l2 * 65536 + l3 * 256 + l4)
          { Id := leaseHash (protocolOfOp op) ip (i1 * 256 + i2),
            Created := st.now, LastSeen := st.now, ClientIP := ip,
            ClientPort := i1 * 256 + i2, Protocol := protocolOfOp op,
            ExternalPort := p }) := by
  refine ⟨?_, ?_, ?_, ?_⟩
  · simp [candidatePorts, List.length_take, Nat.min_eq_left hrlen]
  · intro p hp
    simp only [candidatePorts, List.mem_map] at hp
    obtain ⟨r, hr, rfl⟩ := hp
    have hb : r < 1000 := hrbound r (List.take_subset 10 st.rnd hr)
    unfold randomPort
    omega
  · intro hall
    have hnone := portAllocLoop_eq_none _ _ hall
    simp only [handleNATPMPMappingRequest, List.cons_append, List.nil_append,
      readNetworkOrderUint16, readNetworkOrderUint32, hacl, hmiss, hnone,
      if_true]
  · intro pre p post hsplit hpre hp
    have hsome := portAllocLoop_first _ pre p post hpre hp
    rw [← hsplit] at hsome
    simp only [handleNATPMPMappingRequest, List.cons_append, List.nil_append,
      readNetworkOrderUint16, readNetworkOrderUint32, hacl, hmiss, hsome,
      if_true]

/-- Witness for C2: empty store, all ten rand draws 0, so the first
candidate 10000 is free and is allocated. -/
theorem external_port_allocation_witness :
    handleNATPMPMappingRequest stC 1 ipC ([16, 146, 0, 0, 0, 0, 7, 8] ++ []) =
      finishMapping stC 1 (16 * 256 + 146)
        (0 * 16777216 + 0 * 65536 + 7 * 256 + 8)
        { Id := leaseHash (protocolOfOp 1) ipC (16 * 256 + 146),
          Created := stC.now, LastSeen := stC.now, ClientIP := ipC,
          ClientPort := 16 * 256 + 146, Protocol := protocolOfOp 1,
          ExternalPort := 10000 } :=
  (external_port_allocation stC 1 ipC 16 146 0 0 0 0 7 8 [] (by decide)
    (by decide) (by decide) (by decide)).2.2.2 [] 10000
    (List.replicate 9 10000) (by decide) (by decide) (by decide)

/-! ### C6: repeat request keeps the lease frame -/

theorem getByIpAndPort_filter {store : List PortMappingLease} {ip : IPv4}
    {port : Nat} {protocol : PROTOCOL} {L0 : PortMappingLease}
    (h : GetLeaseByIpAndPort store ip port protocol = .ok (some L0)) :
    store.filter (fun l =>
      l.ClientIP == ip && l.ClientPort == port && l.Protocol == protocol) =
      [L0] := by
  unfold GetLeaseByIpAndPort at h
  rcases hf : store.filter (fun l =>
      l.ClientIP == ip && l.ClientPort == port && l.Protocol == protocol) with
    _ | ⟨l, t⟩
  · rw [hf] at h
    simp at h
  · rcases t with _ | ⟨l2, t2⟩
    · rw [hf] at h
      simp only [Except.ok.injEq, Option.some.injEq] at h
      rw [hf, h]
    · rw [hf] at h
      simp at h

/-- C6. Repeat request: when the triple (ClientIP, internalPort, protocol)
already has exactly one stored lease L0 and the request is admitted, the
response carries L0's external port, the store keeps every other lease
untouched and replaces L0 by L0 with LastSeen advanced to now (Id,
Created, ClientIP, ClientPort, Protocol, ExternalPort unchanged), and the
updated store still holds exactly one lease for the triple. -/
theorem repeat_request_frame (st : ServerState) (op : Nat) (ip : IPv4)
    (i1 i2 e1 e2 l1 l2 l3 l4 : Nat) (rest : List Nat)
    (L0 : PortMappingLease)
    (hacl : aclAllowed st.allowDefault st.acl ip (i1 * 256 + i2) = true)
    (hhit : GetLeaseByIpAndPort st.store ip (i1 * 256 + i2) (protocolOfOp op) =
      .ok (some L0))
    (hnd : (st.store.map (fun l => l.Id)).Nodup)
    (hfresh : L0.LastSeen < st.now) :
    handleNATPMPMappingRequest st op ip
        ([i1, i2, e1, e2, l1, l2, l3, l4] ++ rest) =
      .reply (mappingResponse op 0 st.sec (i1 * 256 + i2) L0.ExternalPort
          (l1 * 16777216 + l2 * 65536 + l3 * 256 + l4))
        (st.store.map (fun l =>
          if l.Id == L0.Id then { L0 with LastSeen := st.now } else l)) ∧
    (st.store.map (fun l =>
        if l.Id == L0.Id then { L0 with LastSeen := st.now } else l)).filter
      (fun l => l.ClientIP == ip && l.ClientPort == (i1 * 256 + i2) &&
        l.Protocol == protocolOfOp op) = [{ L0 with LastSeen := st.now }] := by
  have hfilter := getByIpAndPort_filter hhit
  have hmemf : L0 ∈ st.store.filter (fun l =>
      l.ClientIP == ip && l.ClientPort == (i1 * 256 + i2) &&
      l.Protocol == protocolOfOp op) := by
    rw [hfilter]
    exact List.mem_singleton.mpr rfl
  have hmem : L0 ∈ st.store := List.mem_of_mem_filter hmemf
  have hpred := List.of_mem_filter hmemf
  constructor
  · simp only [handleNATPMPMappingRequest, List.cons_append, List.nil_append,
      readNetworkOrderUint16, readNetworkOrderUint32, hacl, hhit, if_true]
    simp only [finishMapping, UpsertLease, findById_eq_singleton hnd hmem]
    have hnotafter : ¬ (L0.LastSeen >
        ({ L0 with LastSeen := st.now } : PortMappingLease).LastSeen) := by
      show ¬ (L0.LastSeen > st.now)
      omega
    rw [if_neg hnotafter]
    rfl
  · rw [List.filter_map]
    have hcongr : st.store.filter ((fun l =>
        l.ClientIP == ip && l.ClientPort == (i1 * 256 + i2) &&
        l.Protocol == protocolOfOp op) ∘ (fun l =>
        if l.Id == L0.Id then { L0 with LastSeen := st.now } else l)) =
        st.store.filter (fun l =>
        l.ClientIP == ip && l.ClientPort == (i1 * 256 + i2) &&
        l.Protocol == protocolOfOp op) := by
      refine List.filter_congr ?_
      intro x hx
      by_cases hid : x.Id = L0.Id
      · have hxL : x = L0 := member_unique_id hnd hmem hx hid
        subst hxL
        simp only [Function.comp_apply, beq_self_eq_true, if_true]
      · simp [Function.comp_apply, hid]
    rw [hcongr, hfilter]
    simp

def stHit : ServerState := { stC with store := [leaseC], now := 30 }

/-- Witness for C6: repeating the request for leaseC's triple 30 time
units later re-uses external port 10500 and only advances LastSeen. -/
theorem repeat_request_frame_witness :
    handleNATPMPMappingRequest stHit 1 ipC ([16, 146, 0, 0, 0, 0, 7, 8] ++ []) =
      .reply (mappingResponse 1 0 stHit.sec (16 * 256 + 146) leaseC.ExternalPort
          (0 * 16777216 + 0 * 65536 + 7 * 256 + 8))
        (stHit.store.map (fun l =>
          if l.Id == leaseC.Id then { leaseC with LastSeen := stHit.now } else l)) ∧
    (stHit.store.map (fun l =>
        if l.Id == leaseC.Id then { leaseC with LastSeen := stHit.now } else l)).filter
      (fun l => l.ClientIP == ipC && l.ClientPort == (16 * 256 + 146) &&
        l.Protocol == protocolOfOp 1) = [{ leaseC with LastSeen := stHit.now }] :=
  repeat_request_frame stHit 1 ipC 16 146 0 0 0 0 7 8 [] leaseC
    (by decide) (by decide) (by decide) (by decide)

/-! ### C5: response header framing -/

/-- C5 counterexample: the 8-byte unsupported-opcode response to a
version-0 opcode-3 request carries byte 1 = 0, not 128 + 3: the error
responses never set the response bit. -/
theorem response_bit_counterexample :
    handleRequest stC ipC [0, 3] =
      .reply (responseWithErrorResultCode stC.sec 5) stC.store ∧
    (responseWithErrorResultCode stC.sec 5).getD 1 99 = 0 ∧
    (0 : Nat) ≠ (128 + ([0, 3] : List Nat).getD 1 0) % 256 := by
  decide

theorem mappingResponse_header (op rc sec i e l : Nat) :
    (mappingResponse op rc sec i e l).getD 0 99 = 0 ∧
    (mappingResponse op rc sec i e l).getD 1 99 = (128 + op) % 256 ∧
    (mappingResponse op rc sec i e l).length = 16 :=
  ⟨rfl, rfl, rfl⟩

theorem mappingRequest_reply_shape {st : ServerState} {op : Nat} {ip : IPv4}
    {buf res : List Nat} {store' : List PortMappingLease}
    (h : handleNATPMPMappingRequest st op ip buf = .reply res store') :
    ∃ rc i e l, res = mappingResponse op rc st.sec i e l := by
  unfold handleNATPMPMappingRequest at h
  split at h
  · simp at h
  · split at h
    · simp at h
    · split at h
      · simp at h
      · split at h
        · split at h
          · simp at h
          · split at h
            · simp at h
            · simp only [finishMapping, HandleResult.reply.injEq] at h
              exact ⟨0, _, _, _, h.1.symm⟩
          · simp only [finishMapping, HandleResult.reply.injEq] at h
            exact ⟨0, _, _, _, h.1.symm⟩
        · simp only [HandleResult.reply.injEq] at h
          exact ⟨2, _, _, _, h.1.symm⟩

/-- C5 (amended). Every response datagram has byte 0 = 0. Responses to a
recognized request (opcode 0 external-address, opcodes 1 and 2 mapping —
the 12- and 16-byte frames) have byte 1 = 128 + request opcode. The
8-byte error responses (unsupported version, unsupported opcode) instead
carry byte 1 = 0: responseWithErrorResultCode never sets the response
bit, refuting the claim for those frames. -/
theorem response_header_bytes (st : ServerState) (ip : IPv4) (buf : List Nat)
    (res : List Nat) (store' : List PortMappingLease)
    (h : handleRequest st ip buf = .reply res store') :
    res.getD 0 99 = 0 ∧
    (res.length = 8 → res.getD 1 99 = 0) ∧
    (res.length ≠ 8 → res.getD 1 99 = (128 + buf.getD 1 0) % 256) := by
  have herr : ∀ code : Nat, res = responseWithErrorResultCode st.sec code →
      res.getD 0 99 = 0 ∧ (res.length = 8 → res.getD 1 99 = 0) ∧
      (res.length ≠ 8 → res.getD 1 99 = (128 + buf.getD 1 0) % 256) := by
    intro code hres
    subst hres
    exact ⟨rfl, fun _ => rfl, fun hne => absurd rfl hne⟩
  rcases buf with _ | ⟨b0, t⟩
  · simp only [handleRequest, HandleResult.reply.injEq] at h
    exact herr 1 h.1.symm
  · simp only [handleRequest] at h
    split at h
    case isTrue hb =>
      subst hb
      rcases t with _ | ⟨opcode, t2⟩
      · simp only [handleNATPMPRequest, HandleResult.reply.injEq] at h
        exact herr 5 h.1.symm
      · simp only [handleNATPMPRequest] at h
        split at h
        case isTrue h0 =>
          subst h0
          simp only [HandleResult.reply.injEq] at h
          obtain ⟨hres, _⟩ := h
          subst hres
          refine ⟨rfl, fun hl => ?_, fun _ => rfl⟩
          simp [handleNATPMPExternalAddressRequest, writeNetworkOrderUint32] at hl
        case isFalse h0 =>
          split at h
          case isTrue h1 =>
            subst h1
            split at h
            case isTrue hlen =>
              obtain ⟨rc, i, e, l, hres⟩ := mappingRequest_reply_shape h
              subst hres
              refine ⟨rfl, fun hl => ?_, fun _ => rfl⟩
              simp [mappingResponse, writeNetworkOrderUint16,
                writeNetworkOrderUint32] at hl
            case isFalse hlen => simp at h
          case isFalse h1 =>
            split at h
            case isTrue h2 =>
              subst h2
              split at h
              case isTrue hlen =>
                obtain ⟨rc, i, e, l, hres⟩ := mappingRequest_reply_shape h
                subst hres
                refine ⟨rfl, fun hl => ?_, fun _ => rfl⟩
                simp [mappingResponse, writeNetworkOrderUint16,
                  writeNetworkOrderUint32] at hl
              case isFalse hlen => simp at h
            case isFalse h2 =>
              simp only [HandleResult.reply.injEq] at h
              exact herr 5 h.1.symm
    case isFalse hb =>
      simp only [HandleResult.reply.injEq] at h
      exact herr 1 h.1.symm

/-- Witness for C5 at the opcode-0 request 0x00 0x00: a 12-byte response
with byte 0 = 0 and byte 1 = 128. -/
theorem response_header_bytes_witness :
    (handleNATPMPExternalAddressRequest stC.sec stC.externalIP).getD 0 99 = 0 ∧
    ((handleNATPMPExternalAddressRequest stC.sec stC.externalIP).length = 8 →
      (handleNATPMPExternalAddressRequest stC.sec stC.externalIP).getD 1 99 = 0) ∧
    ((handleNATPMPExternalAddressRequest stC.sec stC.externalIP).length ≠ 8 →
      (handleNATPMPExternalAddressRequest stC.sec stC.externalIP).getD 1 99 =
        (128 + ([0, 0] : List Nat).getD 1 0) % 256) :=
  response_header_bytes stC ipC [0, 0] _ _ rfl

/-! ### The iptables filter reconciler (src/unnamed/part_000, ipt_mgr.go)

One iptables table is a list of named chains, each holding its rules in
order; a rule is its argument list (the -N and -A framing and shlex
round-trip that rulesToArgs undoes when listing is absorbed: tokens
written by this manager contain no whitespace or quotes). The go-iptables
calls become pure state transformers; calls that can fail return Option,
and the callers handle none exactly where the Go code logs and bails. -/

abbrev Rule := List String

def sJump : String := "-j"

def sDash : String := "-"

def sDashD : String := "-d"

def sDashS : String := "-s"

def sDashP : String := "-p"

def sDashM : String := "-m"

def sDport : String := "--dport"

def sSport : String := "--sport"

def sComment : String := "comment"

def sCommentFlag : String := "--comment"

def sAccept : String := "ACCEPT"

def sDnat : String := "DNAT"

def sSnat : String := "SNAT"

def sToDest : String := "--to-destination"

def sToSource : String := "--to-source"

def sSlash32 : String := "/32"

def sColon : String := ":"

def chain_port_mapping : String := "port-mapping"

/-- ipt_mgr.go forwardRule. -/
def forwardRule (lease : PortMappingLease) : Rule :=
  [sDashD, lease.ClientIP.str ++ sSlash32, sDashP, lease.Protocol.str,
   sDashM, lease.Protocol.str, sDport, toString lease.ClientPort,
   sDashM, sComment, sCommentFlag, lease.Id, sJump, sAccept]

/-- ipt_mgr.go preroutingRule. -/
def preroutingRule (lease : PortMappingLease) : Rule :=
  [sDashP, lease.Protocol.str,
   sDashM, lease.Protocol.str, sDport, toString lease.ExternalPort,
   sDashM, sComment, sCommentFlag, lease.Id, sJump, sDnat,
   sToDest, lease.ClientIP.str ++ sColon ++ toString lease.ClientPort]

/-- ipt_mgr.go postroutingRule. -/
def postroutingRule (externalIP : IPv4) (lease : PortMappingLease) : Rule :=
  [sDashS, lease.ClientIP.str ++ sSlash32, sDashP, lease.Protocol.str,
   sDashM, lease.Protocol.str, sSport, toString lease.ClientPort,
   sDashM, sComment, sCommentFlag, lease.Id, sJump, sSnat,
   sToSource, externalIP.str ++ sColon ++ toString lease.ExternalPort]

structure IptState where
  chains : List (String × List Rule)
deriving DecidableEq, Repr

def lookupChain : List (String × List Rule) → String → Option (List Rule)
  | [], _ => none
  | (n, rs) :: t, name => if n = name then some rs else lookupChain t name

def setChainRules : List (String × List Rule) → String → List Rule →
    List (String × List Rule)
  | [], _, _ => []
  | (n, rs) :: t, name, rules =>
    if n = name then (n, rules) :: t else (n, rs) :: setChainRules t name rules

def IptState.get (s : IptState) (name : String) : Option (List Rule) :=
  lookupChain s.chains name

/-- go-iptables ChainExists. -/
def chainExists (s : IptState) (name : String) : Bool :=
  (s.get name).isSome

/-- go-iptables NewChain (the manager only calls it when absent). -/
def newChain (s : IptState) (name : String) : IptState :=
  ⟨s.chains ++ [(name, [])]⟩

/-- go-iptables ClearChain on an existing chain: flush its rules. -/
def clearChain (s : IptState) (name : String) : IptState :=
  ⟨setChainRules s.chains name []⟩

/-- go-iptables AppendUnique: append unless an identical rule is present;
a failure is logged by the calling loop and skipped. -/
def appendUnique (s : IptState) (chain : String) (rule : Rule) : IptState :=
  match s.get chain with
  | none => s
  | some rules =>
    if rule ∈ rules then s
    else ⟨setChainRules s.chains chain (rules ++ [rule])⟩

/-- ipt_mgr.go lines 208-213: append every desired rule in order. -/
def appendRules (s : IptState) (chain : String) (rules : List Rule) :
    IptState :=
  rules.foldl (fun acc r => appendUnique acc chain r) s

/-- go-iptables Insert at position 1; errors (none) on a missing chain. -/
def insertRuleAt1 (s : IptState) (chain : String) (rule : Rule) :
    Option IptState :=
  match s.get chain with
  | none => none
  | some rules => some ⟨setChainRules s.chains chain (rule :: rules)⟩

/-- go-iptables Delete: remove the first matching rule; errors (none)
when the chain or the rule is missing. -/
def deleteRule (s : IptState) (chain : String) (rule : Rule) :
    Option IptState :=
  match s.get chain with
  | none => none
  | some rules =>
    if rule ∈ rules then
      some ⟨setChainRules s.chains chain (rules.erase rule)⟩
    else none

def listChains (s : IptState) : List String := s.chains.map (fun c => c.1)

/-- go-iptables ClearAndDeleteChain. -/
def clearAndDeleteChain (s : IptState) (name : String) : IptState :=
  ⟨s.chains.filter (fun c => !(c.1 == name))⟩

/-- ipt_mgr.go lines 230-236: the target of the first -j of a rule. (Go
would panic if -j were the final token; the rules this manager writes
never end that way.) -/
def findJumpTarget : Rule → Option String
  | [] => none
  | [_] => none
  | a :: b :: t => if a = sJump then some b else findJumpTarget (b :: t)

/-- ipt_mgr.go lines 220-248 (listCurrentChain): the base chain must hold
exactly one rule, a jump; follow it and return the target chain's rules.
Every failure (List error, not exactly one rule, no jump target) yields
Go nil, modelled as none. -/
def listCurrentChain (s : IptState) (chainBase : String) :
    Option (List Rule) :=
  match s.get chainBase with
  | none => none
  | some [r] =>
    match findJumpTarget r with
    | none => none
    | some target => if target = "" then none else s.get target
  | some _ => none

/-- ipt_mgr.go lines 261-270: delete, in order, every listed rule after
the first; a Delete error aborts the loop (false), skipping
removeUsedChains. -/
def deleteLoop : IptState → String → List Rule → IptState × Bool
  | s, _, [] => (s, true)
  | s, chainBase, r :: rest =>
    match deleteRule s chainBase r with
    | none => (s, false)
    | some s' => deleteLoop s' chainBase rest

/-- strings.HasPrefix on the character lists. -/
def goHasPrefixChars : List Char → List Char → Bool
  | _, [] => true
  | [], _ :: _ => false
  | c :: t, p :: pt => if c = p then goHasPrefixChars t pt else false

def goHasPrefix (s pre : String) : Bool :=
  goHasPrefixChars s.data pre.data

/-- One step of the removeUsedChains loop over the chain-name snapshot. -/
def removeStep (chainBase sfx : String) (acc : IptState) (chain : String) :
    IptState :=
  if goHasPrefix chain (chainBase ++ sDash) &&
      !(chain == chainBase ++ sDash ++ sfx) then
    clearAndDeleteChain acc chain
  else acc

/-- ipt_mgr.go lines 274-291 (removeUsedChains): flush and delete every
chain of the table whose name extends chainBase ++ "-", except the one
just activated. -/
def removeUsedChains (s : IptState) (chainBase sfx : String) : IptState :=
  (listChains s).foldl (removeStep chainBase sfx) s

/-- ipt_mgr.go lines 250-272 (setActiveChain): insert the jump to the new
chain at position 1 of the base chain, delete every other rule there,
then drop the stale suffixed chains. An error aborts what remains. -/
def setActiveChain (s : IptState) (chainBase sfx : String) : IptState :=
  match insertRuleAt1 s chainBase [sJump, chainBase ++ sDash ++ sfx] with
  | none => s
  | some s1 =>
    match s1.get chainBase with
    | none => s1
    | some rules =>
      match deleteLoop s1 chainBase (rules.drop 1) with
      | (s2, true) => removeUsedChains s2 chainBase sfx
      | (s2, false) => s2

/-- ipt_mgr.go lines 182-218 (ensureIn): render the desired rules from
the leases; if they equal the currently active chain (order-sensitive,
and nil differs from empty) do nothing; otherwise create or clear
chainBase-sfx, fill it, and swap the jump over to it. -/
def ensureIn (s : IptState) (chainBase sfx : String)
    (leases : List PortMappingLease) (fn : PortMappingLease → Rule) :
    IptState :=
  if listCurrentChain s chainBase = some (leases.map fn) then s
  else
    setActiveChain
      (appendRules
        (if chainExists s (chainBase ++ sDash ++ sfx) then
          clearChain s (chainBase ++ sDash ++ sfx)
        else newChain s (chainBase ++ sDash ++ sfx))
        (chainBase ++ sDash ++ sfx) (leases.map fn))
      chainBase sfx

/-! ### Lemmas about the iptables state operations -/

theorem lookup_set_self (cs : List (String × List Rule)) (n : String)
    (rules rs0 : List Rule) (h : lookupChain cs n = some rs0) :
    lookupChain (setChainRules cs n rules) n = some rules := by
  induction cs with
  | nil => simp [lookupChain] at h
  | cons c t ih =>
    obtain ⟨m, rs⟩ := c
    by_cases hm : m = n
    · subst hm
      simp [setChainRules, lookupChain]
    · simp only [setChainRules, lookupChain, if_neg hm] at h ⊢
      exact ih h

theorem lookup_set_other (cs : List (String × List Rule)) (n m : String)
    (rules : List Rule) (hne : m ≠ n) :
    lookupChain (setChainRules cs n rules) m = lookupChain cs m := by
  induction cs with
  | nil => rfl
  | cons c t ih =>
    obtain ⟨k, rs⟩ := c
    by_cases hk : k = n
    · subst hk
      have hkm : k ≠ m := fun h => hne h.symm
      simp [setChainRules, lookupChain, hkm]
    · by_cases hkm : k = m
      · subst hkm
        simp [setChainRules, lookupChain, hk]
      · simp only [setChainRules, lookupChain, if_neg hk, if_neg hkm]
        exact ih

theorem lookup_append (cs ds : List (String × List Rule)) (name : String) :
    lookupChain (cs ++ ds) name =
      match lookupChain cs name with
      | some rs => some rs
      | none => lookupChain ds name := by
  induction cs with
  | nil => simp [lookupChain]
  | cons c t ih =>
    obtain ⟨k, rs⟩ := c
    by_cases hk : k = name
    · simp [lookupChain, hk]
    · simp only [List.cons_append, lookupChain, if_neg hk]
      exact ih

theorem lookup_mem (cs : List (String × List Rule)) (name : String)
    (rs : List Rule) (h : lookupChain cs name = some rs) :
    name ∈ cs.map (fun c => c.1) := by
  induction cs with
  | nil => simp [lookupChain] at h
  | cons c t ih =>
    obtain ⟨k, rs'⟩ := c
    by_cases hk : k = name
    · subst hk
      simp
    · simp only [lookupChain, if_neg hk] at h
      simp [ih h]

theorem cad_get_self (s : IptState) (c : String) :
    (clearAndDeleteChain s c).get c = none := by
  show lookupChain (s.chains.filter (fun x => !(x.1 == c))) c = none
  induction s.chains with
  | nil => rfl
  | cons x t ih =>
    obtain ⟨k, rs⟩ := x
    by_cases hk : k = c
    · subst hk
      simpa [List.filter_cons] using ih
    · simpa [List.filter_cons, hk, lookupChain] using ih

theorem cad_get_other (s : IptState) (c m : String) (hne : m ≠ c) :
    (clearAndDeleteChain s c).get m = s.get m := by
  show lookupChain (s.chains.filter (fun x => !(x.1 == c))) m =
    lookupChain s.chains m
  induction s.chains with
  | nil => rfl
  | cons x t ih =>
    obtain ⟨k, rs⟩ := x
    by_cases hk : k = c
    · subst hk
      have hkm : k ≠ m := fun h => hne h.symm
      simpa [List.filter_cons, lookupChain, hkm] using ih
    · by_cases hkm : k = m
      · subst hkm
        simp [List.filter_cons, hk, lookupChain]
      · simpa [List.filter_cons, hk, hkm, lookupChain] using ih

theorem appendUnique_get_self (s : IptState) (c : String) (r : Rule)
    (acc : List Rule) (h : s.get c = some acc) (hnot : r ∉ acc) :
    (appendUnique s c r).get c = some (acc ++ [r]) := by
  simp only [appendUnique, h]
  rw [if_neg hnot]
  exact lookup_set_self _ _ _ _ h

theorem appendUnique_get_other (s : IptState) (c : String) (r : Rule)
    (m : String) (hne : m ≠ c) :
    (appendUnique s c r).get m = s.get m := by
  rcases h : s.get c with _ | rules
  · simp only [appendUnique, h]
  · simp only [appendUnique, h]
    split
    · rfl
    · exact lookup_set_other _ _ _ _ hne

theorem appendRules_get (c : String) (rules : List Rule) :
    ∀ (s : IptState) (acc : List Rule),
    s.get c = some acc → (∀ r ∈ rules, r ∉ acc) → rules.Nodup →
    (appendRules s c rules).get c = some (acc ++ rules) ∧
    ∀ m, m ≠ c → (appendRules s c rules).get m = s.get m := by
  induction rules with
  | nil =>
    intro s acc h _ _
    exact ⟨by simpa using h, fun m hm => rfl⟩
  | cons r rest ih =>
    intro s acc h hdisj hnd
    have h1 : (appendUnique s c r).get c = some (acc ++ [r]) :=
      appendUnique_get_self s c r acc h (hdisj r (List.mem_cons_self r rest))
    obtain ⟨hr, hnd'⟩ := List.nodup_cons.mp hnd
    have hdisj' : ∀ q ∈ rest, q ∉ acc ++ [r] := by
      intro q hq hmem
      rcases List.mem_append.mp hmem with hin | hin
      · exact hdisj q (List.mem_cons_of_mem r hq) hin
      · rw [List.mem_singleton] at hin
        exact hr (hin ▸ hq)
    obtain ⟨ha, hb⟩ := ih (appendUnique s c r) (acc ++ [r]) h1 hdisj' hnd'
    have hfold : appendRules s c (r :: rest) =
        appendRules (appendUnique s c r) c rest := by
      simp [appendRules, List.foldl_cons]
    constructor
    · rw [hfold, ha, List.append_assoc]
      rfl
    · intro m hm
      rw [hfold, hb m hm]
      exact appendUnique_get_other s c r m hm

theorem deleteLoop_spec (chainBase : String) (j : Rule) (del : List Rule) :
    ∀ (s : IptState),
    s.get chainBase = some (j :: del) → j ∉ del →
    ∃ s', deleteLoop s chainBase del = (s', true) ∧
      s'.get chainBase = some [j] ∧
      ∀ m, m ≠ chainBase → s'.get m = s.get m := by
  induction del with
  | nil =>
    intro s h _
    exact ⟨s, rfl, h, fun m _ => rfl⟩
  | cons r rest ih =>
    intro s h hj
    have hjr : j ≠ r := fun he => hj (he ▸ List.mem_cons_self r rest)
    have hrin : r ∈ j :: r :: rest :=
      List.mem_cons_of_mem _ (List.mem_cons_self r rest)
    have herase : (j :: r :: rest).erase r = j :: rest := by
      rw [List.erase_cons, List.erase_cons]
      simp [hjr]
    have hdel : deleteRule s chainBase r =
        some ⟨setChainRules s.chains chainBase (j :: rest)⟩ := by
      simp only [deleteRule, h, if_pos hrin, herase]
    have hget1 : (⟨setChainRules s.chains chainBase (j :: rest)⟩ :
        IptState).get chainBase = some (j :: rest) :=
      lookup_set_self _ _ _ _ h
    have hj' : j ∉ rest := fun hm => hj (List.mem_cons_of_mem _ hm)
    obtain ⟨s', he, hg, ho⟩ := ih _ hget1 hj'
    refine ⟨s', ?_, hg, ?_⟩
    · simp only [deleteLoop, hdel]
      exact he
    · intro m hm
      rw [ho m hm]
      exact lookup_set_other _ _ _ _ hm

theorem foldl_removeStep_keep (chainBase sfx name : String)
    (hk : goHasPrefix name (chainBase ++ sDash) = false ∨
      name = chainBase ++ sDash ++ sfx) (cs : List String) :
    ∀ (s : IptState),
    (cs.foldl (removeStep chainBase sfx) s).get name = s.get name := by
  induction cs with
  | nil => intro s; rfl
  | cons c t ih =>
    intro s
    rw [List.foldl_cons, ih]
    unfold removeStep
    split
    next hcond =>
      have hname : name ≠ c := by
        rintro rfl
        rw [Bool.and_eq_true] at hcond
        rcases hk with hfalse | hfull
        · rw [hcond.1] at hfalse
          cases hfalse
        · rw [Bool.not_eq_true', beq_eq_false_iff_ne] at hcond
          exact hcond.2 hfull
      exact cad_get_other _ _ _ hname
    next => rfl

theorem foldl_removeStep_dead (chainBase sfx name : String)
    (hpre : goHasPrefix name (chainBase ++ sDash) = true)
    (hne : name ≠ chainBase ++ sDash ++ sfx) (cs : List String) :
    ∀ (s : IptState),
    (name ∈ cs ∨ s.get name = none) →
    (cs.foldl (removeStep chainBase sfx) s).get name = none := by
  induction cs with
  | nil =>
    intro s h
    rcases h with h | h
    · cases h
    · simpa using h
  | cons c t ih =>
    intro s h
    rw [List.foldl_cons]
    by_cases hc : name = c
    · subst hc
      have hs' : (removeStep chainBase sfx s name).get name = none := by
        unfold removeStep
        rw [if_pos (by simp [hpre, hne])]
        exact cad_get_self s name
      exact ih _ (Or.inr hs')
    · rcases h with h | h
      · rcases List.mem_cons.mp h with h1 | h1
        · exact absurd h1 hc
        · exact ih _ (Or.inl h1)
      · have hs' : (removeStep chainBase sfx s c).get name = none := by
          unfold removeStep
          split
          · rw [cad_get_other _ _ _ hc]
            exact h
          · exact h
        exact ih _ (Or.inr hs')

/-! ### String facts about suffixed chain names -/

theorem chainName_ne_base (b p : String) : b ++ sDash ++ p ≠ b := by
  intro h
  have hlen := congrArg String.length h
  rw [String.length_append, String.length_append] at hlen
  have hd : sDash.length = 1 := rfl
  omega

theorem chainName_inj (b p1 p2 : String)
    (h : b ++ sDash ++ p1 = b ++ sDash ++ p2) : p1 = p2 := by
  have hd := congrArg String.data h
  simp only [String.data_append, List.append_assoc,
    List.append_cancel_left_eq] at hd
  exact String.ext hd

theorem chainName_ne_empty (b p : String) : b ++ sDash ++ p ≠ "" := by
  intro h
  have hlen := congrArg String.length h
  rw [String.length_append, String.length_append] at hlen
  have hd : sDash.length = 1 := rfl
  have he : ("" : String).length = 0 := rfl
  omega

theorem goHasPrefixChars_self_cons (l : List Char) (c : Char)
    (cs : List Char) : goHasPrefixChars l (l ++ c :: cs) = false := by
  induction l with
  | nil => rfl
  | cons x t ih => simp [goHasPrefixChars, ih]

theorem goHasPrefix_self_dash (b : String) :
    goHasPrefix b (b ++ sDash) = false := by
  unfold goHasPrefix
  rw [String.data_append]
  have hd : sDash.data = ['-'] := rfl
  rw [hd]
  exact goHasPrefixChars_self_cons b.data '-' []

theorem goHasPrefixChars_nil (l : List Char) :
    goHasPrefixChars l [] = true := by
  cases l <;> rfl

theorem goHasPrefixChars_append (l m : List Char) :
    goHasPrefixChars (l ++ m) l = true := by
  induction l with
  | nil =>
    rw [List.nil_append]
    exact goHasPrefixChars_nil m
  | cons x t ih => simp [goHasPrefixChars, ih]

theorem goHasPrefix_append (b p : String) :
    goHasPrefix (b ++ sDash ++ p) (b ++ sDash) = true := by
  unfold goHasPrefix
  rw [String.data_append]
  exact goHasPrefixChars_append (b ++ sDash).data p.data

/-- After an active ensureIn pass (desired differs from current), the base
chain holds exactly the jump to chainBase-p1, that chain holds exactly the
rendered rules, and every other chainBase-suffixed chain is gone. -/
theorem ensureIn_active (s : IptState) (chainBase p1 : String)
    (leases : List PortMappingLease) (fn : PortMappingLease → Rule)
    (old : List Rule)
    (hbase : s.get chainBase = some old)
    (hjump : [sJump, chainBase ++ sDash ++ p1] ∉ old)
    (hnd : (leases.map fn).Nodup)
    (hne : ¬ listCurrentChain s chainBase = some (leases.map fn)) :
    (ensureIn s chainBase p1 leases fn).get chainBase =
      some [[sJump, chainBase ++ sDash ++ p1]] ∧
    (ensureIn s chainBase p1 leases fn).get (chainBase ++ sDash ++ p1) =
      some (leases.map fn) ∧
    (∀ name, goHasPrefix name (chainBase ++ sDash) = true →
      name ≠ chainBase ++ sDash ++ p1 →
      (ensureIn s chainBase p1 leases fn).get name = none) := by
  set chain1 := chainBase ++ sDash ++ p1 with hchain1
  have hchain_ne : chain1 ≠ chainBase := chainName_ne_base chainBase p1
  set sA := (if chainExists s chain1 then clearChain s chain1
    else newChain s chain1) with hsA
  have hA1 : sA.get chain1 = some [] := by
    rw [hsA]
    by_cases hex : chainExists s chain1 = true
    · rw [if_pos hex]
      unfold chainExists at hex
      rcases hgot : s.get chain1 with _ | rs
      · rw [hgot] at hex
        simp at hex
      · exact lookup_set_self _ _ _ _ hgot
    · rw [if_neg hex]
      unfold chainExists at hex
      have hnone : lookupChain s.chains chain1 = none := by
        rcases hgot : s.get chain1 with _ | rs
        · exact hgot
        · rw [hgot] at hex
          simp at hex
      show lookupChain (s.chains ++ [(chain1, [])]) chain1 = some []
      rw [lookup_append, hnone]
      simp [lookupChain]
  have hA2 : ∀ m, m ≠ chain1 → sA.get m = s.get m := by
    intro m hm
    rw [hsA]
    by_cases hex : chainExists s chain1 = true
    · rw [if_pos hex]
      exact lookup_set_other _ _ _ _ hm
    · rw [if_neg hex]
      show lookupChain (s.chains ++ [(chain1, [])]) m = lookupChain s.chains m
      rw [lookup_append]
      rcases hg : lookupChain s.chains m with _ | rs
      · have hcm : chain1 ≠ m := fun h => hm h.symm
        simp [lookupChain, hcm]
      · rfl
  set sB := appendRules sA chain1 (leases.map fn) with hsB
  obtain ⟨hB1, hB2⟩ := appendRules_get chain1 (leases.map fn) sA [] hA1
    (by simp) hnd
  have hB1' : sB.get chain1 = some (leases.map fn) := by simpa using hB1
  have hBbase : sB.get chainBase = some old := by
    rw [hB2 chainBase (Ne.symm hchain_ne), hA2 chainBase (Ne.symm hchain_ne)]
    exact hbase
  have hins : insertRuleAt1 sB chainBase [sJump, chain1] =
      some ⟨setChainRules sB.chains chainBase ([sJump, chain1] :: old)⟩ := by
    simp only [insertRuleAt1, hBbase]
  set sC : IptState :=
    ⟨setChainRules sB.chains chainBase ([sJump, chain1] :: old)⟩ with hsC
  have hC1 : sC.get chainBase = some ([sJump, chain1] :: old) :=
    lookup_set_self _ _ _ _ hBbase
  have hC2 : ∀ m, m ≠ chainBase → sC.get m = sB.get m := fun m hm =>
    lookup_set_other _ _ _ _ hm
  obtain ⟨sD, hDel, hD1, hD2⟩ :=
    deleteLoop_spec chainBase [sJump, chain1] old sC hC1 hjump
  have hset : setActiveChain sB chainBase p1 =
      removeUsedChains sD chainBase p1 := by
    unfold setActiveChain
    rw [← hchain1]
    simp only [hins, hC1]
    rw [show ([sJump, chain1] :: old).drop 1 = old from rfl]
    simp only [hDel]
  have hEq : ensureIn s chainBase p1 leases fn =
      removeUsedChains sD chainBase p1 := by
    unfold ensureIn
    rw [if_neg hne, ← hchain1, ← hsA, ← hsB]
    exact hset
  rw [hEq]
  refine ⟨?_, ?_, ?_⟩
  · unfold removeUsedChains
    rw [foldl_removeStep_keep chainBase p1 chainBase
      (Or.inl (goHasPrefix_self_dash chainBase)) (listChains sD) sD]
    exact hD1
  · unfold removeUsedChains
    rw [foldl_removeStep_keep chainBase p1 chain1 (Or.inr hchain1)
      (listChains sD) sD]
    rw [hD2 chain1 hchain_ne, hC2 chain1 hchain_ne]
    exact hB1'
  · intro name hpre hname
    unfold removeUsedChains
    apply foldl_removeStep_dead chainBase p1 name hpre hname
    rcases hn : sD.get name with _ | rs
    · exact Or.inr rfl
    · exact Or.inl (lookup_mem sD.chains name rs hn)

/-- C8. Filter-reconciler idempotence: when the currently active rule list
already equals the desired one (order-sensitive) a pass does nothing; and
running ensureIn twice with the same lease set (the rendered rules free of
duplicates, the base chain present, its rules not already jumping to the
fresh suffix) leaves the state of the second pass identical to the first
pass — the second pass is a no-op and creates no chain with the second
suffix. -/
theorem ensureIn_idempotent (s : IptState) (chainBase p1 p2 : String)
    (leases : List PortMappingLease) (fn : PortMappingLease → Rule)
    (old : List Rule)
    (hbase : s.get chainBase = some old)
    (hjump : [sJump, chainBase ++ sDash ++ p1] ∉ old)
    (hnd : (leases.map fn).Nodup)
    (hp : p1 ≠ p2)
    (hp2 : chainExists s (chainBase ++ sDash ++ p2) = false) :
    (listCurrentChain s chainBase = some (leases.map fn) →
      ensureIn s chainBase p1 leases fn = s) ∧
    ensureIn (ensureIn s chainBase p1 leases fn) chainBase p2 leases fn =
      ensureIn s chainBase p1 leases fn ∧
    chainExists (ensureIn s chainBase p1 leases fn)
      (chainBase ++ sDash ++ p2) = false := by
  have hnoop : ∀ t : IptState,
      listCurrentChain t chainBase = some (leases.map fn) →
      ensureIn t chainBase p2 leases fn = t := by
    intro t ht
    unfold ensureIn
    rw [if_pos ht]
  by_cases hcur : listCurrentChain s chainBase = some (leases.map fn)
  · have h1 : ensureIn s chainBase p1 leases fn = s := by
      unfold ensureIn
      rw [if_pos hcur]
    refine ⟨fun _ => h1, ?_, ?_⟩
    · rw [h1]
      exact hnoop s hcur
    · rw [h1]
      exact hp2
  · obtain ⟨hA, hB, hdead⟩ :=
      ensureIn_active s chainBase p1 leases fn old hbase hjump hnd hcur
    have hf : findJumpTarget [sJump, chainBase ++ sDash ++ p1] =
        some (chainBase ++ sDash ++ p1) := by
      simp [findJumpTarget]
    have hcur1 : listCurrentChain (ensureIn s chainBase p1 leases fn)
        chainBase = some (leases.map fn) := by
      unfold listCurrentChain
      simp only [hA, hf]
      rw [if_neg (chainName_ne_empty chainBase p1)]
      exact hB
    refine ⟨fun h => absurd h hcur, hnoop _ hcur1, ?_⟩
    unfold chainExists
    rw [hdead (chainBase ++ sDash ++ p2) (goHasPrefix_append chainBase p2)
      (fun h => hp (chainName_inj chainBase p2 p1 h).symm)]
    rfl

def iptC : IptState := ⟨[(chain_port_mapping, [])]⟩

def sfxA : String := "abcdef"

def sfxB : String := "ghijkl"

/-- Witness for C8 on a concrete table holding an empty port-mapping base
chain and one lease. -/
theorem ensureIn_idempotent_witness :
    (listCurrentChain iptC chain_port_mapping =
        some ([leaseC].map forwardRule) →
      ensureIn iptC chain_port_mapping sfxA [leaseC] forwardRule = iptC) ∧
    ensureIn (ensureIn iptC chain_port_mapping sfxA [leaseC] forwardRule)
        chain_port_mapping sfxB [leaseC] forwardRule =
      ensureIn iptC chain_port_mapping sfxA [leaseC] forwardRule ∧
    chainExists (ensureIn iptC chain_port_mapping sfxA [leaseC] forwardRule)
      (chain_port_mapping ++ sDash ++ sfxB) = false :=
  ensureIn_idempotent iptC chain_port_mapping sfxA sfxB [leaseC] forwardRule
    [] (by decide) (by decide) (by decide) (by decide) (by decide)
